import Mathlib

/-!
Verification of the `timer.py` utility of the `cli-scripts` repository.

The development shallowly embeds the timer's data model and operations:

* `Timedelta` models `datetime.timedelta` as an exact count of microseconds
  (Python normalizes a timedelta to `(days, seconds, microseconds)` with
  `0 <= seconds < 86400` and `0 <= microseconds < 1000000`; those projections
  are recovered here by Euclidean division, which agrees with Python's
  floor division and modulo for positive divisors).
* `TimeInfo` models the `TimeInfo` named tuple with its two constructors
  `TimeInfo.from_timedelta` and `TimeInfo.from_timestr`.
* The string parser `TimeInfo.from_timestr` is embedded over `List Char`,
  together with models of the Python string primitives it uses
  (`str.partition`, `str.count`, `str.split`, `str.strip`, `int(...)`).
* The run loop of `timer(...)` is embedded as a pure function over the list
  of tick intervals observed before the `KeyboardInterrupt` arrives (the
  interrupt is modelled as arriving during the `sleep` that follows the
  last processed tick, which is the designed delivery point).

Float-valued configuration (`update_interval`, `suspend_margin`) is modelled
with exact rationals.
-/

namespace Timer

/-- Model of `datetime.timedelta`: the total signed duration in microseconds.
Python's bounded range (about ±999999999 days) is not imposed. -/
structure Timedelta where
  us : Int
deriving DecidableEq, Repr

/-- Microseconds per day. -/
def usPerDay : Int := 86400000000

/-- Python `timedelta.days` (floor division, so negative durations have
negative days). `Int` division here is Euclidean division, which agrees
with Python's floor division for positive divisors. -/
def Timedelta.days (t : Timedelta) : Int := t.us / usPerDay

/-- Python `timedelta.seconds`: whole seconds within the day, in `[0, 86400)`. -/
def Timedelta.seconds (t : Timedelta) : Int := (t.us % usPerDay) / 1000000

/-- Python `timedelta.microseconds`: sub-second part, in `[0, 1000000)`. -/
def Timedelta.microseconds (t : Timedelta) : Int := t.us % 1000000

/-- Python's builtin `divmod` on integers: floor quotient and floor
remainder, which agree with Euclidean quotient and remainder when the
divisor is positive. -/
def divmod (a b : Int) : Int × Int := (a / b, a % b)

/-- Model of the `TimeInfo` named tuple `(days, hours, minutes, seconds,
microseconds)` of `timer.py`. -/
structure TimeInfo where
  days : Int
  hours : Int
  minutes : Int
  seconds : Int
  microseconds : Int
deriving DecidableEq, Repr

/-- `TimeInfo.from_timedelta` (timer.py lines 44-60):
`minutes, seconds = divmod(timedelta.seconds, 60)`;
`hours, minutes = divmod(minutes, 60)`. -/
def TimeInfo.from_timedelta (td : Timedelta) : TimeInfo :=
  let ms := divmod td.seconds 60
  let hm := divmod ms.1 60
  { days := td.days
    hours := hm.1
    minutes := hm.2
    seconds := ms.2
    microseconds := td.microseconds }

/-- Python's `datetime.timedelta(days=..., hours=..., minutes=..., seconds=...,
microseconds=...)` constructor: all keyword arguments are merged into a single
signed microsecond count. -/
def timedeltaOfFields (d h m s us : Int) : Timedelta :=
  ⟨(((d * 24 + h) * 60 + m) * 60 + s) * 1000000 + us⟩

/-- `datetime.timedelta(**timeinfo._asdict())` as used by
`timedelta_from_timestr` (timer.py lines 108-110). -/
def timedeltaOfTimeInfo (ti : TimeInfo) : Timedelta :=
  timedeltaOfFields ti.days ti.hours ti.minutes ti.seconds ti.microseconds

/-! ### Python string primitives used by `TimeInfo.from_timestr` -/

/-- The permitted characters of `timer.py` line 70: the characters of the
Python string literal given there (digits, colon, comma, dot, space, and the
letters of the word after the dot in `" days"`). -/
def permittedChars : List Char := "01234567890:,. days".data

/-- `char in "01234567890:,. days"`. -/
def charOK (c : Char) : Bool := decide (c ∈ permittedChars)

/-- The ten ASCII digits. -/
def digitChars : List Char := ['0', '1', '2', '3', '4', '5', '6', '7', '8', '9']

/-- ASCII digit test, used to model which characters Python's `int(...)`
accepts as digits. (Python also accepts non-ASCII decimal digits, but no
such character is in the permitted set of `from_timestr`.) -/
def isAsciiDigit (c : Char) : Bool := decide (c ∈ digitChars)

/-- ASCII whitespace as stripped by Python's `int(str)` conversion.
(Python also strips some non-ASCII whitespace; none is reachable here.) -/
def isPyWs (c : Char) : Bool :=
  c = ' ' ∨ c = '\t' ∨ c = '\n' ∨ c = '\r' ∨ c = '\x0b' ∨ c = '\x0c'

/-- Python `str.strip()` (whitespace from both ends). -/
def pyStrip (l : List Char) : List Char :=
  ((l.dropWhile isPyWs).reverse.dropWhile isPyWs).reverse

/-- Numeric value of a list of ASCII digits, most significant first. -/
def digitsToNat (l : List Char) : Nat :=
  l.foldl (fun a c => 10 * a + (c.toNat - 48)) 0

/-- The digit-run part of Python's `int(str)`: a nonempty run of digits.
(Underscore digit grouping, which Python also accepts, cannot occur in any
string that reaches `int` in this program: `'_'` is not a permitted
character of `from_timestr`.) -/
def pyNatStr (l : List Char) : Option Nat :=
  if l ≠ [] ∧ l.all isAsciiDigit then some (digitsToNat l) else none

/-- Sign handling of Python's `int(str)` after whitespace stripping. -/
def pyIntCore : List Char → Option Int
  | [] => none
  | c :: rest =>
    if c = '-' then (pyNatStr rest).map (fun n => -(n : Int))
    else if c = '+' then (pyNatStr rest).map (fun n => (n : Int))
    else (pyNatStr (c :: rest)).map (fun n => (n : Int))

/-- Python `int(str)`: strip whitespace, optional sign, nonempty digit run;
`None` models the `ValueError` raised otherwise. -/
def pyInt (l : List Char) : Option Int := pyIntCore (pyStrip l)

/-- Python `str.count(c)` for a single-character argument. -/
def countChar (c : Char) : List Char → Nat
  | [] => 0
  | a :: t => (if a = c then 1 else 0) + countChar c t

/-- Python `str.partition(sep)` for nonempty `sep`, returning the parts
before and after the first occurrence of `sep`; `none` when `sep` does not
occur (so `some` also models the `sep in str` test). -/
def splitFirst (sep : List Char) : List Char → Option (List Char × List Char)
  | [] => if sep.isEmpty then some ([], []) else none
  | c :: rest =>
    if sep.isPrefixOf (c :: rest) then some ([], (c :: rest).drop sep.length)
    else (splitFirst sep rest).map (fun p => (c :: p.1, p.2))

/-- Python `str.split(c)` for a single-character separator: splits at every
occurrence, keeping empty segments (`"".split(c) == [""]`). -/
def splitChar (c : Char) : List Char → List (List Char)
  | [] => [[]]
  | a :: t =>
    if a = c then [] :: splitChar c t
    else
      match splitChar c t with
      | [] => [[a]]
      | x :: xs => (a :: x) :: xs

/-! ### `TimeInfo.from_timestr` -/

/-- The days separator `" days, "` of timer.py line 74. -/
def daysSep : List Char := " days, ".data

/-- Timer.py lines 74-78: if `" days, " in timestr` then partition on its
first occurrence into the days part and the time segment, else default the
days part to `"0"`. -/
def timeSegSplit (l : List Char) : List Char × List Char :=
  match splitFirst daysSep l with
  | some p => p
  | none => (['0'], l)

/-- The error cases of `TimeInfo.from_timestr`: `badChar` is the
`AssertionError` of the character check (line 70), `tooManyColons` the
`ValueError` for more than two colons (lines 89-92), `badIntLit` the
`ValueError` raised by an `int(...)` conversion (lines 98-104). -/
inductive ParseError where
  | badChar
  | tooManyColons
  | badIntLit
deriving DecidableEq, Repr

/-- Result of `TimeInfo.from_timestr`: a `TimeInfo`, or the exception the
Python code raises. -/
inductive ParseResult where
  | ok (t : TimeInfo)
  | error (e : ParseError)
deriving DecidableEq, Repr

/-- Timer.py lines 93-97: strip an optional `.<microseconds>` suffix off
the seconds segment (`if "." in seconds: seconds, _, microseconds =
seconds.partition(".")`, first dot only), defaulting microseconds to `"0"`.
The `none` match arm is unreachable, since a dot is present. -/
def dotSplit (secondsS : List Char) : List Char × List Char :=
  if '.' ∈ secondsS then
    match splitFirst ['.'] secondsS with
    | some p => p
    | none => (secondsS, ['0'])
  else (secondsS, ['0'])

/-- Timer.py lines 93-105: split off the microseconds suffix, then convert
the five segments with `int(...)` (a failure of any conversion is the
`ValueError` of the `int` calls in the `cls(...)` construction). -/
def parseFields (daysS hoursS minutesS secondsS : List Char) : ParseResult :=
  match pyInt daysS, pyInt hoursS, pyInt minutesS,
      pyInt (dotSplit secondsS).1, pyInt (dotSplit secondsS).2 with
  | some d, some h, some m, some s, some us => .ok ⟨d, h, m, s, us⟩
  | _, _, _, _, _ => .error .badIntLit

/-- `TimeInfo.from_timestr` (timer.py lines 62-105) over a character list:
assert every character permitted; strip the optional days prefix; branch on
the colon count of the remaining time segment (0 colons: seconds only;
1 colon: `minutes:seconds`; 2 colons: `hours:minutes:seconds`; otherwise
raise), with absent leading fields defaulting to `"0"`. The wildcard match
arms are unreachable, since `timestr.split(":")` always yields exactly
`colon_count + 1` segments. -/
def from_timestrL (l : List Char) : ParseResult :=
  if l.all charOK then
    let p := timeSegSplit l
    let cc := countChar ':' p.2
    if cc = 0 then parseFields p.1 ['0'] ['0'] p.2
    else if cc = 1 then
      match splitChar ':' p.2 with
      | [m, s] => parseFields p.1 ['0'] m s
      | _ => .error .tooManyColons
    else if cc = 2 then
      match splitChar ':' p.2 with
      | [h, m, s] => parseFields p.1 h m s
      | _ => .error .tooManyColons
    else .error .tooManyColons
  else .error .badChar

/-- `TimeInfo.from_timestr` on a `String`. -/
def TimeInfo.from_timestr (s : String) : ParseResult := from_timestrL s.data

/-- `timedelta_from_timestr` (timer.py lines 108-110). -/
def timedelta_from_timestr (s : String) : Option Timedelta :=
  match TimeInfo.from_timestr s with
  | .ok ti => some (timedeltaOfTimeInfo ti)
  | .error _ => none

/-! ### Formatting -/

/-- Zero-pad a numeral string on the left to width `w`. -/
def padZeros (w : Nat) (s : String) : String :=
  if s.length < w then String.mk (List.replicate (w - s.length) '0') ++ s else s

/-- Python `"%0wd" % n` (equivalently the format spec `0wd`): sign first,
then zero-padding to total width `w`. -/
def pyFormatPad (w : Nat) (n : Int) : String :=
  if n < 0 then "-" ++ padZeros (w - 1) (toString (-n)) else padZeros w (toString n)

/-- `DEFAULT_OUTPUT_FORMAT` (timer.py line 20) applied to a `TimeInfo` via
`str.format`: hours, minutes and seconds under format spec `02d`,
microseconds under the default `d`, joined by the literal text of the
template. The days field is not referenced by the default template. -/
def renderDefault (ti : TimeInfo) : String :=
  pyFormatPad 2 ti.hours ++ "h : " ++ pyFormatPad 2 ti.minutes ++ "m : " ++
    pyFormatPad 2 ti.seconds ++ "s : " ++ toString ti.microseconds ++ "ms"

/-- Python `str(datetime.timedelta)`: `"H:MM:SS"`, preceded by
`"D day(s), "` when the days field is nonzero (singular `"day"` exactly when
`abs(days) == 1`), followed by `".UUUUUU"` when the microseconds field is
nonzero. -/
def strTimedelta (td : Timedelta) : String :=
  let ms := divmod td.seconds 60
  let hm := divmod ms.1 60
  let base := toString hm.1 ++ ":" ++ pyFormatPad 2 hm.2 ++ ":" ++ pyFormatPad 2 ms.2
  let withDays :=
    if td.days ≠ 0 then
      toString td.days ++ (if td.days.natAbs ≠ 1 then " days, " else " day, ") ++ base
    else base
  if td.microseconds ≠ 0 then withDays ++ "." ++ pyFormatPad 6 td.microseconds
  else withDays

/-! ### The timer run loop -/

/-- Round a rational to the nearest integer, ties to even: Python's
`round()`, used by the `datetime.timedelta` constructor when converting a
float seconds value to whole microseconds. Writing `f = ⌊q⌋`, the
fractional part `q - f` is compared against `1/2` by comparing
`2 * (q.num - f * q.den)` against `q.den` (the denominator is positive). -/
def roundHalfEven (q : ℚ) : Int :=
  let f := q.num.ediv q.den
  let r2 := 2 * (q.num - f * q.den)
  if r2 < (q.den : Int) then f
  else if (q.den : Int) < r2 then f + 1
  else if f % 2 = 0 then f else f + 1

/-- `datetime.timedelta(seconds=x)` for a float `x`, with the float modelled
as an exact rational. -/
def timedeltaOfSeconds (q : ℚ) : Timedelta := ⟨roundHalfEven (q * 1000000)⟩

/-- `likely_suspended_timedelta = datetime.timedelta(seconds=update_interval
+ suspend_margin)` (timer.py line 152), the suspend threshold. -/
def likely_suspended_timedelta (update_interval suspend_margin : ℚ) : Timedelta :=
  timedeltaOfSeconds (update_interval + suspend_margin)

/-- One iteration's elapsed-time accounting (timer.py lines 168-172): if the
observed `interval` is strictly greater than the threshold the tick is
classified as a suspend gap (`true`) and `elapsed` is unchanged; otherwise
it is a normal tick (`false`) and `elapsed += interval`. Python compares
timedeltas by their total signed duration. -/
def timerStep (threshold elapsed interval : Timedelta) : Timedelta × Bool :=
  if threshold.us < interval.us then (elapsed, true)
  else (⟨elapsed.us + interval.us⟩, false)

/-- One line written to standard output: the blank line of a bare
`print()`, the in-place time display printed by `msg` (its formatted
payload), or an informational line. -/
inductive OutEvent where
  | blankLine
  | timeLine (s : String)
  | infoLine (s : String)
deriving DecidableEq, Repr

/-- `msg(...)` (timer.py lines 142-150): unless printing is skipped, print
the current elapsed time formatted through the output template. -/
def msgEvents (render : TimeInfo → String) (elapsed : Timedelta)
    (skip_printing : Bool) : List OutEvent :=
  if skip_printing then [] else [.timeLine (render (TimeInfo.from_timedelta elapsed))]

/-- The body of one `while True` iteration after `sleep` returns
(timer.py lines 162-173): compute the interval, classify it, on a suspend
gap print a blank line unless `final_only` (to avoid overwriting the shell's
job-resume message), then call `msg()`. -/
def loopBody (render : TimeInfo → String) (threshold : Timedelta)
    (final_only : Bool) (elapsed interval : Timedelta) : Timedelta × List OutEvent :=
  let step := timerStep threshold elapsed interval
  (step.1,
    (if step.2 ∧ ¬final_only then [.blankLine] else []) ++
      msgEvents render step.1 final_only)

/-- The `while True` loop run over the list of tick intervals observed
before the interrupt arrives; returns the final elapsed value and the
output produced by the loop iterations. -/
def runLoop (render : TimeInfo → String) (threshold : Timedelta)
    (final_only : Bool) : Timedelta → List Timedelta → Timedelta × List OutEvent
  | elapsed, [] => (elapsed, [])
  | elapsed, iv :: rest =>
    let this := loopBody render threshold final_only elapsed iv
    let tail := runLoop render threshold final_only this.1 rest
    (tail.1, this.2 ++ tail.2)

/-- The observable outcome of one run of `timer(...)`: the returned
timedelta and everything written to standard output. -/
structure RunResult where
  returned : Timedelta
  events : List OutEvent
deriving DecidableEq, Repr

/-- The `KeyboardInterrupt: exiting` line (timer.py line 179). -/
def kbInterruptLine : String := "KeyboardInterrupt: exiting"

/-- `timer(...)` (timer.py lines 113-180) with the `KeyboardInterrupt`
arriving during the `sleep` that follows the last interval of `ticks` (the
designed delivery point; `sleep` is the only blocking call of the loop).
Before the loop a blank line is printed unless `final_only`; the `except
KeyboardInterrupt` handler runs exactly once: in `final_only` mode it first
prints a blank line, then it always calls `msg(skip_printing=False)` — the
one guaranteed final display — then prints the exit notice unless
`final_only`, and returns `elapsed`. -/
def timerRun (render : TimeInfo → String) (threshold init : Timedelta)
    (final_only : Bool) (ticks : List Timedelta) : RunResult :=
  let header : List OutEvent := if final_only then [] else [.blankLine]
  let loopOut := runLoop render threshold final_only init ticks
  let handler : List OutEvent :=
    (if final_only then [.blankLine] else []) ++
      msgEvents render loopOut.1 false ++
      (if final_only then [] else [.infoLine kbInterruptLine])
  { returned := loopOut.1, events := header ++ loopOut.2 ++ handler }

/-- The timer pipeline driven from the command line: the initial time is
parsed by `timedelta_from_timestr` during argument parsing, before
`timer(...)` runs; a parse failure therefore aborts before the run loop
starts. -/
def timer_main (initial : String) (update_interval suspend_margin : ℚ)
    (final_only : Bool) (ticks : List Timedelta) : Option RunResult :=
  match TimeInfo.from_timestr initial with
  | .ok ti =>
      some (timerRun renderDefault
        (likely_suspended_timedelta update_interval suspend_margin)
        (timedeltaOfTimeInfo ti) final_only ticks)
  | .error _ => none


/-- Whether an output event is a time display (a `msg` print). -/
def isTimeLine : OutEvent → Bool
  | .timeLine _ => true
  | _ => false

/-- Number of time displays among a list of output events. -/
def countTimeLine (evs : List OutEvent) : Nat := evs.countP isTimeLine

/-- The spec's Duration invariant (spec section 3): non-negative, with
minutes and seconds in `0-59`, hours in `0-23`, and only days unbounded. -/
def isNormalizedDuration (ti : TimeInfo) : Prop :=
  0 ≤ ti.days ∧ 0 ≤ ti.hours ∧ ti.hours ≤ 23 ∧ 0 ≤ ti.minutes ∧ ti.minutes ≤ 59 ∧
    0 ≤ ti.seconds ∧ ti.seconds ≤ 59 ∧ 0 ≤ ti.microseconds

instance (ti : TimeInfo) : Decidable (isNormalizedDuration ti) := by
  unfold isNormalizedDuration
  infer_instance

/-! ### Helper lemmas about the string primitives -/

theorem digit_char_facts {c : Char} (h : c ∈ digitChars) :
    charOK c = true ∧ isPyWs c = false ∧
      c ≠ '-' ∧ c ≠ '+' ∧ c ≠ ':' ∧ c ≠ '.' ∧ c ≠ ' ' := by
  fin_cases h <;> exact ⟨by decide, by decide, by decide, by decide, by decide,
    by decide, by decide⟩

theorem mem_digitChars_of_isAsciiDigit {c : Char} (h : isAsciiDigit c = true) :
    c ∈ digitChars := of_decide_eq_true h

theorem dropWhile_eq_self {p : Char → Bool} {l : List Char}
    (h : ∀ c ∈ l, p c = false) : l.dropWhile p = l := by
  cases l with
  | nil => rfl
  | cons a t => simp [List.dropWhile_cons, h a (List.mem_cons_self a t)]

theorem pyStrip_eq_self {l : List Char} (h : ∀ c ∈ l, isPyWs c = false) :
    pyStrip l = l := by
  unfold pyStrip
  rw [dropWhile_eq_self h,
    dropWhile_eq_self (fun c hc => h c (List.mem_reverse.mp hc)),
    List.reverse_reverse]

theorem pyStrip_subset {l : List Char} : ∀ c ∈ pyStrip l, c ∈ l := by
  intro c hc
  unfold pyStrip at hc
  rw [List.mem_reverse] at hc
  have h1 := (List.dropWhile_sublist _).subset hc
  rw [List.mem_reverse] at h1
  exact (List.dropWhile_sublist _).subset h1

theorem pyInt_digits {l : List Char} (hne : l ≠ []) (hd : l.all isAsciiDigit = true) :
    pyInt l = some ((digitsToNat l : Int)) := by
  have hmem : ∀ c ∈ l, c ∈ digitChars :=
    fun c hc => mem_digitChars_of_isAsciiDigit (List.all_eq_true.mp hd c hc)
  have hstrip : pyStrip l = l :=
    pyStrip_eq_self (fun c hc => (digit_char_facts (hmem c hc)).2.1)
  unfold pyInt
  rw [hstrip]
  cases l with
  | nil => exact absurd rfl hne
  | cons a t =>
    have ha := digit_char_facts (hmem a (List.mem_cons_self a t))
    simp only [pyIntCore]
    rw [if_neg ha.2.2.1, if_neg ha.2.2.2.1]
    unfold pyNatStr
    rw [if_pos ⟨List.cons_ne_nil a t, hd⟩]
    rfl

theorem pyInt_nonneg {l : List Char} (h : ∀ c ∈ l, c ≠ '-') {v : Int}
    (hv : pyInt l = some v) : 0 ≤ v := by
  unfold pyInt at hv
  cases hs : pyStrip l with
  | nil => rw [hs] at hv; simp [pyIntCore] at hv
  | cons a t =>
    rw [hs] at hv
    have ha : a ≠ '-' :=
      h a (pyStrip_subset a (by rw [hs]; exact List.mem_cons_self a t))
    simp only [pyIntCore] at hv
    rw [if_neg ha] at hv
    split at hv
    · cases hn : pyNatStr t with
      | none => rw [hn] at hv; simp at hv
      | some n => rw [hn] at hv; simp at hv; omega
    · cases hn : pyNatStr (a :: t) with
      | none => rw [hn] at hv; simp at hv
      | some n => rw [hn] at hv; simp at hv; omega

theorem countChar_append (c : Char) (a b : List Char) :
    countChar c (a ++ b) = countChar c a + countChar c b := by
  induction a with
  | nil => simp [countChar]
  | cons x t ih => simp [countChar, ih]; omega

theorem countChar_eq_zero {c : Char} {l : List Char} (h : c ∉ l) :
    countChar c l = 0 := by
  induction l with
  | nil => rfl
  | cons a t ih =>
    have hac : ¬a = c := fun e => h (by rw [← e]; exact List.mem_cons_self a t)
    unfold countChar
    rw [if_neg hac, ih (fun e => h (List.mem_cons_of_mem a e))]

theorem splitFirst_subset {sep : List Char} : ∀ {l a b : List Char},
    splitFirst sep l = some (a, b) → (∀ c ∈ a, c ∈ l) ∧ (∀ c ∈ b, c ∈ l) := by
  intro l
  induction l with
  | nil =>
    intro a b h
    unfold splitFirst at h
    split at h
    · simp at h
      obtain ⟨rfl, rfl⟩ := h
      exact ⟨fun c hc => hc, fun c hc => hc⟩
    · simp at h
  | cons x t ih =>
    intro a b h
    unfold splitFirst at h
    split at h
    · simp at h
      obtain ⟨rfl, rfl⟩ := h
      exact ⟨fun c hc => by simp at hc, fun c hc => List.drop_subset _ _ hc⟩
    · cases hrec : splitFirst sep t with
      | none => rw [hrec] at h; simp at h
      | some p =>
        rw [hrec] at h
        simp at h
        obtain ⟨rfl, rfl⟩ := h
        have hp := ih hrec
        refine ⟨fun c hc => ?_, fun c hc => List.mem_cons_of_mem _ (hp.2 c hc)⟩
        rcases List.mem_cons.mp hc with rfl | hc
        · exact List.mem_cons_self _ _
        · exact List.mem_cons_of_mem _ (hp.1 c hc)

theorem isPrefixOf_append_self (a b : List Char) : a.isPrefixOf (a ++ b) = true := by
  induction a with
  | nil => simp [List.isPrefixOf]
  | cons x xs ih => simp [List.isPrefixOf, ih]

theorem isPrefixOf_false_of_head_ne {x a : Char} (sep t : List Char) (h : a ≠ x) :
    (x :: sep).isPrefixOf (a :: t) = false := by
  simp [List.isPrefixOf]
  intro hc
  exact absurd hc.symm h

theorem splitFirst_eq_none {x : Char} {sep l : List Char} (h : x ∉ l) :
    splitFirst (x :: sep) l = none := by
  induction l with
  | nil => rfl
  | cons a t ih =>
    have hax : a ≠ x := fun e => h (by rw [e]; exact List.mem_cons_self x t)
    unfold splitFirst
    rw [isPrefixOf_false_of_head_ne sep t hax]
    simp only [Bool.false_eq_true, if_false]
    rw [ih (fun e => h (List.mem_cons_of_mem a e))]
    rfl

theorem splitFirst_prefix_append (sep s : List Char) (hne : sep ≠ []) :
    splitFirst sep (sep ++ s) = some ([], s) := by
  cases sep with
  | nil => exact absurd rfl hne
  | cons x xs =>
    show splitFirst (x :: xs) (x :: (xs ++ s)) = some ([], s)
    unfold splitFirst
    rw [show x :: (xs ++ s) = (x :: xs) ++ s from rfl, isPrefixOf_append_self]
    simp only [if_true]
    rw [List.drop_left]

theorem splitFirst_notmem_append {x : Char} {sep d s : List Char} (hd : x ∉ d) :
    splitFirst (x :: sep) (d ++ ((x :: sep) ++ s)) = some (d, s) := by
  induction d with
  | nil => simpa using splitFirst_prefix_append (x :: sep) s (by simp)
  | cons a t ih =>
    show splitFirst (x :: sep) (a :: (t ++ ((x :: sep) ++ s))) = some (a :: t, s)
    have hax : a ≠ x := fun e => hd (by rw [e]; exact List.mem_cons_self x t)
    unfold splitFirst
    rw [isPrefixOf_false_of_head_ne _ _ hax]
    simp only [Bool.false_eq_true, if_false]
    rw [ih (fun e => hd (List.mem_cons_of_mem a e))]
    rfl

theorem timeSegSplit_no_days {l : List Char} (h : ' ' ∉ l) :
    timeSegSplit l = (['0'], l) := by
  unfold timeSegSplit
  rw [show daysSep = ' ' :: "days, ".data from by decide, splitFirst_eq_none h]

theorem timeSegSplit_days {d s : List Char} (hd : ' ' ∉ d) :
    timeSegSplit (d ++ (daysSep ++ s)) = (d, s) := by
  unfold timeSegSplit
  rw [show daysSep = ' ' :: "days, ".data from by decide, splitFirst_notmem_append hd]

theorem splitChar_not_mem {c : Char} {l : List Char} (h : c ∉ l) :
    splitChar c l = [l] := by
  induction l with
  | nil => rfl
  | cons a t ih =>
    have hac : ¬a = c := fun e => h (by rw [← e]; exact List.mem_cons_self a t)
    simp only [splitChar]
    rw [if_neg hac, ih (fun e => h (List.mem_cons_of_mem a e))]

theorem splitChar_cons_self (c : Char) (l : List Char) :
    splitChar c (c :: l) = [] :: splitChar c l := by
  simp [splitChar]

theorem splitChar_append {c : Char} {a b : List Char} (h : c ∉ a) :
    splitChar c (a ++ c :: b) = a :: splitChar c b := by
  induction a with
  | nil => simp [splitChar_cons_self]
  | cons x t ih =>
    show splitChar c (x :: (t ++ c :: b)) = (x :: t) :: splitChar c b
    have hxc : ¬x = c := fun e => h (by rw [← e]; exact List.mem_cons_self x t)
    simp only [splitChar]
    rw [if_neg hxc, ih (fun e => h (List.mem_cons_of_mem x e))]

theorem splitChar_subset {c : Char} {l : List Char} :
    ∀ p ∈ splitChar c l, ∀ x ∈ p, x ∈ l := by
  induction l with
  | nil =>
    intro p hp x hx
    simp [splitChar] at hp
    subst hp
    simp at hx
  | cons a t ih =>
    intro p hp x hx
    unfold splitChar at hp
    by_cases hac : a = c
    · rw [if_pos hac] at hp
      rcases List.mem_cons.mp hp with rfl | hp
      · simp at hx
      · exact List.mem_cons_of_mem _ (ih p hp x hx)
    · rw [if_neg hac] at hp
      cases hsc : splitChar c t with
      | nil =>
        rw [hsc] at hp
        simp at hp
        subst hp
        rcases List.mem_cons.mp hx with rfl | hx
        · exact List.mem_cons_self _ _
        · simp at hx
      | cons y ys =>
        rw [hsc] at hp
        rcases List.mem_cons.mp hp with rfl | hp
        · rcases List.mem_cons.mp hx with rfl | hx
          · exact List.mem_cons_self _ _
          · exact List.mem_cons_of_mem _
              (ih y (by rw [hsc]; exact List.mem_cons_self y ys) x hx)
        · exact List.mem_cons_of_mem _
            (ih p (by rw [hsc]; exact List.mem_cons_of_mem _ hp) x hx)

/-! ### Branch lemmas for `from_timestrL` -/

theorem digit_list_facts {l : List Char} (hne : l ≠ []) (hd : l.all isAsciiDigit = true) :
    l.all charOK = true ∧ ' ' ∉ l ∧ ':' ∉ l ∧ '.' ∉ l ∧
      countChar ':' l = 0 ∧ pyInt l = some ((digitsToNat l : Int)) := by
  have hmem : ∀ c ∈ l, c ∈ digitChars :=
    fun c hc => mem_digitChars_of_isAsciiDigit (List.all_eq_true.mp hd c hc)
  have hcol : ':' ∉ l := fun hc => (digit_char_facts (hmem ':' hc)).2.2.2.2.1 rfl
  refine ⟨List.all_eq_true.mpr (fun c hc => (digit_char_facts (hmem c hc)).1),
    fun hc => (digit_char_facts (hmem ' ' hc)).2.2.2.2.2.2 rfl,
    hcol,
    fun hc => (digit_char_facts (hmem '.' hc)).2.2.2.2.2.1 rfl,
    countChar_eq_zero hcol,
    pyInt_digits hne hd⟩

theorem pyInt_zero : pyInt ['0'] = some 0 := by decide

theorem dotSplit_no_dot {s : List Char} (h : '.' ∉ s) : dotSplit s = (s, ['0']) := by
  unfold dotSplit
  rw [if_neg h]

theorem parseFields_eval {a b c s : List Char} {va vb vc vs : Int}
    (ha : pyInt a = some va) (hb : pyInt b = some vb) (hc : pyInt c = some vc)
    (hsv : pyInt s = some vs) (hdot : '.' ∉ s) :
    parseFields a b c s = .ok ⟨va, vb, vc, vs, 0⟩ := by
  unfold parseFields
  rw [dotSplit_no_dot hdot]
  simp only [ha, hb, hc, hsv, pyInt_zero]

theorem from_timestrL_badchar {l : List Char} (h : ¬l.all charOK = true) :
    from_timestrL l = .error .badChar := by
  unfold from_timestrL
  rw [if_neg h]

theorem from_timestrL_case0 {l : List Char} (hall : l.all charOK = true)
    (hnd : ' ' ∉ l) (hcc : countChar ':' l = 0) :
    from_timestrL l = parseFields ['0'] ['0'] ['0'] l := by
  simp only [from_timestrL, if_pos hall, timeSegSplit_no_days hnd]
  rw [if_pos hcc]

theorem from_timestrL_case1 {l m s : List Char} (hall : l.all charOK = true)
    (hnd : ' ' ∉ l) (hcc : countChar ':' l = 1)
    (hsplit : splitChar ':' l = [m, s]) :
    from_timestrL l = parseFields ['0'] ['0'] m s := by
  simp only [from_timestrL, if_pos hall, timeSegSplit_no_days hnd]
  rw [if_neg (by omega), if_pos hcc, hsplit]

theorem from_timestrL_case2 {l a b c : List Char} (hall : l.all charOK = true)
    (hnd : ' ' ∉ l) (hcc : countChar ':' l = 2)
    (hsplit : splitChar ':' l = [a, b, c]) :
    from_timestrL l = parseFields ['0'] a b c := by
  simp only [from_timestrL, if_pos hall, timeSegSplit_no_days hnd]
  rw [if_neg (by omega), if_neg (by omega), if_pos hcc, hsplit]

theorem from_timestrL_days {d r : List Char} (hall : (d ++ (daysSep ++ r)).all charOK = true)
    (hnd : ' ' ∉ d) (hcc : countChar ':' r = 2) {a b c : List Char}
    (hsplit : splitChar ':' r = [a, b, c]) :
    from_timestrL (d ++ (daysSep ++ r)) = parseFields d a b c := by
  simp only [from_timestrL, if_pos hall, timeSegSplit_days hnd]
  rw [if_neg (by omega), if_neg (by omega), if_pos hcc, hsplit]

theorem from_timestrL_colons {l : List Char} (hall : l.all charOK = true)
    (hcc : 2 < countChar ':' (timeSegSplit l).2) :
    from_timestrL l = .error .tooManyColons := by
  simp only [from_timestrL, if_pos hall]
  rw [if_neg (by omega), if_neg (by omega), if_neg (by omega)]

/-! ### Run-loop lemmas -/

theorem runLoop_elapsed (render : TimeInfo → String) (thr : Timedelta) (fo : Bool) :
    ∀ (ticks : List Timedelta) (init : Timedelta),
      (runLoop render thr fo init ticks).1
        = ticks.foldl (fun e iv => (timerStep thr e iv).1) init := by
  intro ticks
  induction ticks with
  | nil => intro init; rfl
  | cons iv rest ih =>
    intro init
    simp only [runLoop, loopBody, List.foldl_cons]
    exact ih _

theorem runLoop_us (render : TimeInfo → String) (thr : Timedelta) (fo : Bool) :
    ∀ (ticks : List Timedelta) (init : Timedelta),
      (runLoop render thr fo init ticks).1.us
        = init.us +
            ((ticks.filter fun iv => decide (iv.us ≤ thr.us)).map Timedelta.us).sum := by
  intro ticks
  induction ticks with
  | nil => intro init; simp [runLoop]
  | cons iv rest ih =>
    intro init
    simp only [runLoop, loopBody]
    by_cases hc : thr.us < iv.us
    · have hstep : (timerStep thr init iv).1 = init := by simp [timerStep, hc]
      have hfilter : decide (iv.us ≤ thr.us) = false := decide_eq_false (by omega)
      rw [hstep, ih, List.filter_cons, hfilter]
      simp
    · have hstep : (timerStep thr init iv).1 = ⟨init.us + iv.us⟩ := by
        simp [timerStep, hc]
      have hfilter : decide (iv.us ≤ thr.us) = true := decide_eq_true (by omega)
      rw [hstep, ih, List.filter_cons, hfilter]
      simp
      omega

theorem countTimeLine_loopBody (render : TimeInfo → String) (thr : Timedelta)
    (fo : Bool) (e iv : Timedelta) :
    countTimeLine (loopBody render thr fo e iv).2 = cond fo 0 1 := by
  simp only [loopBody, msgEvents, countTimeLine, List.countP_append]
  split <;> cases fo <;> rfl

theorem runLoop_count (render : TimeInfo → String) (thr : Timedelta) (fo : Bool) :
    ∀ (ticks : List Timedelta) (init : Timedelta),
      countTimeLine (runLoop render thr fo init ticks).2 = cond fo 0 ticks.length := by
  intro ticks
  induction ticks with
  | nil => intro init; cases fo <;> rfl
  | cons iv rest ih =>
    intro init
    simp only [runLoop, countTimeLine, List.countP_append]
    have h1 := countTimeLine_loopBody render thr fo init iv
    have h2 := ih (timerStep thr init iv).1
    simp only [countTimeLine] at h1 h2
    cases fo
    · simp only [cond_false] at h1 h2 ⊢
      simp only [loopBody] at h1 ⊢
      simp only [List.length_cons]
      omega
    · simp only [cond_true] at h1 h2 ⊢
      simp only [loopBody] at h1 ⊢
      omega

/-! ### Non-negativity of parsed fields -/

theorem charOK_no_minus {l : List Char} (hall : l.all charOK = true) :
    ∀ c ∈ l, c ≠ '-' := by
  intro c hc he
  subst he
  exact absurd (List.all_eq_true.mp hall '-' hc) (by decide)

theorem zero_seg_no_minus : ∀ x ∈ ['0'], x ≠ '-' := by
  intro x hx
  rcases List.mem_singleton.mp hx with rfl
  decide

theorem timeSegSplit_no_minus {l : List Char} (hm : ∀ c ∈ l, c ≠ '-') :
    (∀ c ∈ (timeSegSplit l).1, c ≠ '-') ∧ (∀ c ∈ (timeSegSplit l).2, c ≠ '-') := by
  cases hsf : splitFirst daysSep l with
  | none =>
    simp only [timeSegSplit, hsf]
    exact ⟨zero_seg_no_minus, hm⟩
  | some p =>
    obtain ⟨a, b⟩ := p
    simp only [timeSegSplit, hsf]
    have hsub := splitFirst_subset hsf
    exact ⟨fun c hc => hm c (hsub.1 c hc), fun c hc => hm c (hsub.2 c hc)⟩

theorem dotSplit_no_minus {s : List Char} (hns : ∀ x ∈ s, x ≠ '-') :
    (∀ x ∈ (dotSplit s).1, x ≠ '-') ∧ (∀ x ∈ (dotSplit s).2, x ≠ '-') := by
  unfold dotSplit
  split
  · cases hsf : splitFirst ['.'] s with
    | none => simp only [hsf]; exact ⟨hns, zero_seg_no_minus⟩
    | some p =>
      obtain ⟨u, v⟩ := p
      simp only [hsf]
      have hsub := splitFirst_subset hsf
      exact ⟨fun x hx => hns x (hsub.1 x hx), fun x hx => hns x (hsub.2 x hx)⟩
  · exact ⟨hns, zero_seg_no_minus⟩

theorem parseFields_nonneg {a b c s : List Char} {ti : TimeInfo}
    (hna : ∀ x ∈ a, x ≠ '-') (hnb : ∀ x ∈ b, x ≠ '-')
    (hnc : ∀ x ∈ c, x ≠ '-') (hns : ∀ x ∈ s, x ≠ '-')
    (h : parseFields a b c s = .ok ti) :
    0 ≤ ti.days ∧ 0 ≤ ti.hours ∧ 0 ≤ ti.minutes ∧ 0 ≤ ti.seconds ∧
      0 ≤ ti.microseconds := by
  obtain ⟨hs1, hs2⟩ := dotSplit_no_minus hns
  unfold parseFields at h
  cases h1 : pyInt a with
  | none => rw [h1] at h; simp at h
  | some v1 =>
    rw [h1] at h
    cases h2 : pyInt b with
    | none => rw [h2] at h; simp at h
    | some v2 =>
      rw [h2] at h
      cases h3 : pyInt c with
      | none => rw [h3] at h; simp at h
      | some v3 =>
        rw [h3] at h
        cases h4 : pyInt (dotSplit s).1 with
        | none => rw [h4] at h; simp at h
        | some v4 =>
          rw [h4] at h
          cases h5 : pyInt (dotSplit s).2 with
          | none => rw [h5] at h; simp at h
          | some v5 =>
            rw [h5] at h
            simp only [] at h
            cases h
            exact ⟨pyInt_nonneg hna h1, pyInt_nonneg hnb h2, pyInt_nonneg hnc h3,
              pyInt_nonneg hs1 h4, pyInt_nonneg hs2 h5⟩

theorem from_timestr_fields_nonneg {l : List Char} {ti : TimeInfo}
    (h : from_timestrL l = .ok ti) :
    0 ≤ ti.days ∧ 0 ≤ ti.hours ∧ 0 ≤ ti.minutes ∧ 0 ≤ ti.seconds ∧
      0 ≤ ti.microseconds := by
  simp only [from_timestrL] at h
  split at h
  case isFalse => simp at h
  case isTrue hall =>
    have hm : ∀ c ∈ l, c ≠ '-' := charOK_no_minus hall
    obtain ⟨hm1, hm2⟩ := timeSegSplit_no_minus hm
    split at h
    · exact parseFields_nonneg hm1 zero_seg_no_minus zero_seg_no_minus hm2 h
    · split at h
      · split at h
        case _ m s heq =>
          have hsub := splitChar_subset (c := ':') (l := (timeSegSplit l).2)
          rw [heq] at hsub
          exact parseFields_nonneg hm1 zero_seg_no_minus
            (fun x hx => hm2 x (hsub m (by simp) x hx))
            (fun x hx => hm2 x (hsub s (by simp) x hx)) h
        case _ => simp at h
      · split at h
        · split at h
          case _ a b c heq =>
            have hsub := splitChar_subset (c := ':') (l := (timeSegSplit l).2)
            rw [heq] at hsub
            exact parseFields_nonneg hm1
              (fun x hx => hm2 x (hsub a (by simp) x hx))
              (fun x hx => hm2 x (hsub b (by simp) x hx))
              (fun x hx => hm2 x (hsub c (by simp) x hx)) h
          case _ => simp at h
        · simp at h

/-! ### Composite-list helper lemmas -/

theorem all_charOK_append {a b : List Char} (ha : a.all charOK = true)
    (hb : b.all charOK = true) : (a ++ b).all charOK = true := by
  simp [List.all_append, ha, hb]

theorem all_charOK_colon_cons {l : List Char} (hl : l.all charOK = true) :
    (':' :: l).all charOK = true := by
  simp [List.all_cons, hl]
  decide

theorem not_mem_append_of {x : Char} {a b : List Char} (ha : x ∉ a) (hb : x ∉ b) :
    x ∉ a ++ b := by
  intro h
  rcases List.mem_append.mp h with h | h
  · exact ha h
  · exact hb h

theorem not_mem_colon_cons {x : Char} {l : List Char} (hx : x ≠ ':') (hl : x ∉ l) :
    x ∉ ':' :: l := by
  intro h
  rcases List.mem_cons.mp h with h | h
  · exact hx h
  · exact hl h

theorem countChar_colon_cons (l : List Char) :
    countChar ':' (':' :: l) = 1 + countChar ':' l := by
  simp [countChar]

/-! ## The claims -/

/-- **C1**: on every tick, an observed interval strictly greater than the
suspend threshold `update_interval + suspend_margin` is classified as a
suspend gap and leaves `elapsed` unchanged, while any other interval is a
normal tick whose full length is added to `elapsed`; with
`update_interval=1.0` and `suspend_margin=0.0` (threshold `1.0s`), a `0.9s`
interval adds `0.9s` and a `5.0s` interval adds nothing. -/
theorem C1_tick_classification (thr elapsed : Timedelta) :
    (∀ interval : Timedelta, thr.us < interval.us →
      timerStep thr elapsed interval = (elapsed, true)) ∧
    (∀ interval : Timedelta, interval.us ≤ thr.us →
      timerStep thr elapsed interval = (⟨elapsed.us + interval.us⟩, false)) ∧
    likely_suspended_timedelta 1 0 = ⟨1000000⟩ ∧
    timerStep (likely_suspended_timedelta 1 0) elapsed ⟨900000⟩
      = (⟨elapsed.us + 900000⟩, false) ∧
    timerStep (likely_suspended_timedelta 1 0) elapsed ⟨5000000⟩ = (elapsed, true) := by
  have hthr : likely_suspended_timedelta 1 0 = ⟨1000000⟩ := by
    norm_num [likely_suspended_timedelta, timedeltaOfSeconds, roundHalfEven]
  refine ⟨?_, ?_, hthr, ?_, ?_⟩
  · intro iv h
    unfold timerStep
    rw [if_pos h]
  · intro iv h
    unfold timerStep
    rw [if_neg (not_lt.mpr h)]
  · rw [hthr]
    unfold timerStep
    rw [if_neg (by decide)]
  · rw [hthr]
    unfold timerStep
    rw [if_pos (by decide)]

theorem C1_tick_classification_witness :
    timerStep ⟨1000000⟩ ⟨0⟩ ⟨5000000⟩ = (⟨0⟩, true) ∧
    timerStep ⟨1000000⟩ ⟨0⟩ ⟨900000⟩ = (⟨0 + 900000⟩, false) :=
  ⟨(C1_tick_classification ⟨1000000⟩ ⟨0⟩).1 ⟨5000000⟩ (by decide),
   (C1_tick_classification ⟨1000000⟩ ⟨0⟩).2.1 ⟨900000⟩ (by decide)⟩

/-- **C2**: for every run, the interrupt is absorbed (the run yields a total
`RunResult`, never an error); the returned duration is the fold of the
per-tick accounting over the observed intervals, equal to the initial value
plus the sum of exactly the normal (non-gap) intervals, so no interval is
double-counted or dropped; and the output ends with exactly one final
display of the returned elapsed value — in final-only mode the only
display, otherwise in addition to the one display per tick. -/
theorem C2_interrupt_accounting (render : TimeInfo → String) (thr init : Timedelta)
    (fo : Bool) (ticks : List Timedelta) :
    (timerRun render thr init fo ticks).returned
        = ticks.foldl (fun e iv => (timerStep thr e iv).1) init ∧
    (timerRun render thr init fo ticks).returned.us
        = init.us
            + ((ticks.filter fun iv => decide (iv.us ≤ thr.us)).map Timedelta.us).sum ∧
    ∃ pre,
      (timerRun render thr init fo ticks).events
          = pre ++
              (OutEvent.timeLine (render (TimeInfo.from_timedelta
                  (timerRun render thr init fo ticks).returned)) ::
                (if fo then [] else [.infoLine kbInterruptLine])) ∧
        countTimeLine pre = cond fo 0 ticks.length := by
  refine ⟨?_, ?_, ?_⟩
  · simp only [timerRun]
    exact runLoop_elapsed render thr fo ticks init
  · simp only [timerRun]
    exact runLoop_us render thr fo ticks init
  · refine ⟨(if fo then [] else [.blankLine]) ++ (runLoop render thr fo init ticks).2
      ++ (if fo then [.blankLine] else []), ?_, ?_⟩
    · simp only [timerRun, msgEvents]
      simp [List.append_assoc]
    · rw [countTimeLine, List.countP_append, List.countP_append]
      have hc := runLoop_count render thr fo ticks init
      rw [countTimeLine] at hc
      cases fo
      · simpa [isTimeLine] using hc
      · simpa [isTimeLine] using hc

/-- **C3** (evaluating the code at the failing input): the one-day Duration
decomposes to fields `(1, 0, 0, 0, 0)` and serializes, via the canonical
`str(timedelta)` form, to `"1 day, 0:00:00"` (singular `"day"`), but
`TimeInfo.from_timestr` fails on that very string with a `ValueError`
instead of reproducing the source fields, because only the plural
`" days, "` separator is recognized. -/
theorem C3_day_singular_breaks_roundtrip :
    TimeInfo.from_timedelta ⟨86400000000⟩ = ⟨1, 0, 0, 0, 0⟩ ∧
    strTimedelta ⟨86400000000⟩ = "1 day, 0:00:00" ∧
    TimeInfo.from_timestr "1 day, 0:00:00" = .error .badIntLit := by decide

/-- **C4**: the digits after the dot are taken as a literal integer count of
microseconds, with no padding or truncation to six digits: `"1.5"` parses to
seconds 1 and microseconds 5 (not 500000), and a seven-digit fraction such
as `"0.1234567"` is taken literally as 1234567. -/
theorem C4_literal_microseconds :
    TimeInfo.from_timestr "1.5" = .ok ⟨0, 0, 0, 1, 5⟩ ∧
    TimeInfo.from_timestr "0.1234567" = .ok ⟨0, 0, 0, 0, 1234567⟩ := by decide

/-- **C5**: the time segment left after stripping the optional
`"<int> days, "` prefix is interpreted by colon count — zero colons are
seconds only, one colon is `minutes:seconds`, two colons are
`hours:minutes:seconds` — and every absent leading field, absent days
prefix and absent fractional suffix defaults to 0. -/
theorem C5_colon_interpretation (d hrs mins secs : List Char)
    (hd : d ≠ [] ∧ d.all isAsciiDigit = true)
    (hh : hrs ≠ [] ∧ hrs.all isAsciiDigit = true)
    (hm : mins ≠ [] ∧ mins.all isAsciiDigit = true)
    (hs : secs ≠ [] ∧ secs.all isAsciiDigit = true) :
    from_timestrL secs = .ok ⟨0, 0, 0, (digitsToNat secs : Int), 0⟩ ∧
    from_timestrL (mins ++ ':' :: secs)
      = .ok ⟨0, 0, (digitsToNat mins : Int), (digitsToNat secs : Int), 0⟩ ∧
    from_timestrL (hrs ++ ':' :: (mins ++ ':' :: secs))
      = .ok ⟨0, (digitsToNat hrs : Int), (digitsToNat mins : Int),
          (digitsToNat secs : Int), 0⟩ ∧
    from_timestrL (d ++ (daysSep ++ (hrs ++ ':' :: (mins ++ ':' :: secs))))
      = .ok ⟨(digitsToNat d : Int), (digitsToNat hrs : Int), (digitsToNat mins : Int),
          (digitsToNat secs : Int), 0⟩ := by
  obtain ⟨hdall, hdsp, hdcol, hddot, hdcc, hdint⟩ := digit_list_facts hd.1 hd.2
  obtain ⟨hhall, hhsp, hhcol, hhdot, hhcc, hhint⟩ := digit_list_facts hh.1 hh.2
  obtain ⟨hmall, hmsp, hmcol, hmdot, hmcc, hmint⟩ := digit_list_facts hm.1 hm.2
  obtain ⟨hsall, hssp, hscol, hsdot, hscc, hsint⟩ := digit_list_facts hs.1 hs.2
  have hall2 : (mins ++ ':' :: secs).all charOK = true :=
    all_charOK_append hmall (all_charOK_colon_cons hsall)
  have hsp2 : ' ' ∉ mins ++ ':' :: secs :=
    not_mem_append_of hmsp (not_mem_colon_cons (by decide) hssp)
  have hcc2 : countChar ':' (mins ++ ':' :: secs) = 1 := by
    rw [countChar_append, hmcc, countChar_colon_cons, hscc]
  have hsplit2 : splitChar ':' (mins ++ ':' :: secs) = [mins, secs] := by
    rw [splitChar_append hmcol, splitChar_not_mem hscol]
  have hall3 : (hrs ++ ':' :: (mins ++ ':' :: secs)).all charOK = true :=
    all_charOK_append hhall (all_charOK_colon_cons hall2)
  have hsp3 : ' ' ∉ hrs ++ ':' :: (mins ++ ':' :: secs) :=
    not_mem_append_of hhsp (not_mem_colon_cons (by decide) hsp2)
  have hcc3 : countChar ':' (hrs ++ ':' :: (mins ++ ':' :: secs)) = 2 := by
    rw [countChar_append, hhcc, countChar_colon_cons, hcc2]
  have hsplit3 : splitChar ':' (hrs ++ ':' :: (mins ++ ':' :: secs))
      = [hrs, mins, secs] := by
    rw [splitChar_append hhcol, hsplit2]
  have hall4 : (d ++ (daysSep ++ (hrs ++ ':' :: (mins ++ ':' :: secs)))).all charOK
      = true :=
    all_charOK_append hdall (all_charOK_append (by decide) hall3)
  refine ⟨?_, ?_, ?_, ?_⟩
  · rw [from_timestrL_case0 hsall hssp hscc]
    exact parseFields_eval pyInt_zero pyInt_zero pyInt_zero hsint hsdot
  · rw [from_timestrL_case1 hall2 hsp2 hcc2 hsplit2]
    exact parseFields_eval pyInt_zero pyInt_zero hmint hsint hsdot
  · rw [from_timestrL_case2 hall3 hsp3 hcc3 hsplit3]
    exact parseFields_eval pyInt_zero hhint hmint hsint hsdot
  · rw [from_timestrL_days hall4 hdsp hcc3 hsplit3]
    exact parseFields_eval hdint hhint hmint hsint hsdot

theorem C5_colon_interpretation_witness :
    from_timestrL ['4'] = .ok ⟨0, 0, 0, 4, 0⟩ ∧
    from_timestrL (['3'] ++ ':' :: ['4']) = .ok ⟨0, 0, 3, 4, 0⟩ ∧
    from_timestrL (['1'] ++ ':' :: (['3'] ++ ':' :: ['4'])) = .ok ⟨0, 1, 3, 4, 0⟩ ∧
    from_timestrL (['2'] ++ (daysSep ++ (['1'] ++ ':' :: (['3'] ++ ':' :: ['4']))))
      = .ok ⟨2, 1, 3, 4, 0⟩ :=
  C5_colon_interpretation ['2'] ['1'] ['3'] ['4']
    (by decide) (by decide) (by decide) (by decide)

/-- **C6**: any input containing a character outside the permitted set fails
with the character-check error, any input whose time segment (after the
days prefix is stripped) has three or more colons fails with the
too-many-colons error, and any parse failure of the initial time aborts the
pipeline before the run loop produces anything. -/
theorem C6_rejects_invalid :
    (∀ l : List Char, (∃ c ∈ l, charOK c = false) →
      from_timestrL l = .error .badChar) ∧
    (∀ l : List Char, l.all charOK = true →
      2 < countChar ':' (timeSegSplit l).2 →
      from_timestrL l = .error .tooManyColons) ∧
    (∀ (s : String) (ui sm : ℚ) (fo : Bool) (ticks : List Timedelta) (e : ParseError),
      TimeInfo.from_timestr s = .error e → timer_main s ui sm fo ticks = none) := by
  refine ⟨?_, ?_, ?_⟩
  · rintro l ⟨c, hc, hbad⟩
    apply from_timestrL_badchar
    intro hall
    have := List.all_eq_true.mp hall c hc
    rw [hbad] at this
    simp at this
  · intro l hall hcc
    exact from_timestrL_colons hall hcc
  · intro s ui sm fo ticks e he
    unfold timer_main
    rw [he]

theorem C6_rejects_invalid_witness :
    from_timestrL "x".data = .error .badChar ∧
    from_timestrL "1:2:3:4".data = .error .tooManyColons ∧
    timer_main "x" 1 0 false [] = none :=
  ⟨C6_rejects_invalid.1 "x".data (by decide),
   C6_rejects_invalid.2.1 "1:2:3:4".data (by decide) (by decide),
   C6_rejects_invalid.2.2 "x" 1 0 false [] .badChar (by decide)⟩

/-- **C7** (counterexample): the claim that every constructor-produced
Duration is normalized fails — `TimeInfo.from_timestr` performs no
normalization, so `"100"` parses to a `TimeInfo` whose seconds field is 100,
outside `0-59`. -/
theorem C7_normalized_counterexample :
    TimeInfo.from_timestr "100" = .ok ⟨0, 0, 0, 100, 0⟩ ∧
    ¬isNormalizedDuration ⟨0, 0, 0, 100, 0⟩ := by decide

/-- **C7** (amended): `TimeInfo.from_timedelta` of a non-negative timedelta
is non-negative and normalized (minutes and seconds in `0-59`, hours in
`0-23`, days unbounded); `TimeInfo.from_timestr` always produces
componentwise non-negative fields but does not normalize them. -/
theorem C7_normalized_amended :
    (∀ td : Timedelta, 0 ≤ td.us →
      isNormalizedDuration (TimeInfo.from_timedelta td)) ∧
    (∀ (l : List Char) (ti : TimeInfo), from_timestrL l = .ok ti →
      0 ≤ ti.days ∧ 0 ≤ ti.hours ∧ 0 ≤ ti.minutes ∧ 0 ≤ ti.seconds ∧
        0 ≤ ti.microseconds) := by
  constructor
  · intro td h
    simp only [isNormalizedDuration, TimeInfo.from_timedelta, divmod, Timedelta.days,
      Timedelta.seconds, Timedelta.microseconds, usPerDay]
    omega
  · intro l ti h
    exact from_timestr_fields_nonneg h

theorem C7_normalized_amended_witness :
    isNormalizedDuration (TimeInfo.from_timedelta ⟨90061000001⟩) ∧
    ((0 : Int) ≤ 0 ∧ (0 : Int) ≤ 0 ∧ (0 : Int) ≤ 0 ∧ (0 : Int) ≤ 100 ∧
      (0 : Int) ≤ 0) :=
  ⟨C7_normalized_amended.1 ⟨90061000001⟩ (by decide),
   C7_normalized_amended.2 "100".data ⟨0, 0, 0, 100, 0⟩ (by decide)⟩

/-- **C8**: starting from the initial time parsed from `"1:30:0.0"`, one
normal tick of exactly 10 seconds (normal for any threshold of at least
10s) yields an elapsed value that the default output template renders as
`"01h : 30m : 10s : 0ms"`, with no days field. -/
theorem C8_end_to_end (thr : Timedelta) (h : (10000000 : Int) ≤ thr.us) :
    TimeInfo.from_timestr "1:30:0.0" = .ok ⟨0, 1, 30, 0, 0⟩ ∧
    timerStep thr (timedeltaOfTimeInfo ⟨0, 1, 30, 0, 0⟩) ⟨10000000⟩
      = (⟨5410000000⟩, false) ∧
    renderDefault (TimeInfo.from_timedelta ⟨5410000000⟩) = "01h : 30m : 10s : 0ms" := by
  refine ⟨by decide, ?_, by decide⟩
  unfold timerStep
  rw [if_neg (by exact not_lt.mpr h)]
  norm_num [timedeltaOfTimeInfo, timedeltaOfFields]

theorem C8_end_to_end_witness :
    (10000000 : Int) ≤ (⟨10000000⟩ : Timedelta).us ∧
    (TimeInfo.from_timestr "1:30:0.0" = .ok ⟨0, 1, 30, 0, 0⟩ ∧
      timerStep ⟨10000000⟩ (timedeltaOfTimeInfo ⟨0, 1, 30, 0, 0⟩) ⟨10000000⟩
        = (⟨5410000000⟩, false) ∧
      renderDefault (TimeInfo.from_timedelta ⟨5410000000⟩)
        = "01h : 30m : 10s : 0ms") :=
  ⟨by decide, C8_end_to_end ⟨10000000⟩ (by decide)⟩

/-- **C9**: the field decomposition of `TimeInfo.from_timedelta` is
lossless — rebuilding a timedelta from the five fields (as
`timedelta_from_timestr` does via the timedelta constructor) recovers
exactly the source timedelta. -/
theorem C9_from_timedelta_lossless (td : Timedelta) :
    timedeltaOfTimeInfo (TimeInfo.from_timedelta td) = td := by
  obtain ⟨us⟩ := td
  simp only [timedeltaOfTimeInfo, timedeltaOfFields, TimeInfo.from_timedelta, divmod,
    Timedelta.days, Timedelta.seconds, Timedelta.microseconds, usPerDay,
    Timedelta.mk.injEq]
  omega

/-- **C10**: strings made only of permitted characters can still fail to
parse — an empty numeric segment (nothing after the dot, empty fields
between colons, or the empty string) raises the `int(...)` conversion
error, so passing the character check is not sufficient. -/
theorem C10_permitted_not_sufficient :
    ("1:30:00.".data.all charOK = true ∧
      TimeInfo.from_timestr "1:30:00." = .error .badIntLit) ∧
    ("::".data.all charOK = true ∧
      TimeInfo.from_timestr "::" = .error .badIntLit) ∧
    ("".data.all charOK = true ∧
      TimeInfo.from_timestr "" = .error .badIntLit) := by decide

end Timer
